import Mathlib

/-!
Verification of the timeseries-generator composition engine.

A shallow embedding of the core of the `timeseries_generator` package:
the factor contract (`base_factor.py`), the built-in factors
(`linear_trend.py`, `weekday_factor.py`, `white_noise.py`,
`holiday_factor.py`) and the composition engine (`generator.py`).

Modelling conventions:
* calendar dates are day numbers (`Int`, days since 1970-01-01, which was a
  Thursday, so `dayofweek d = (d + 3) % 7` with Monday = 0);
* numeric values are `Rat` (the Python code computes with floats; the claims
  under study are about the exact formulas and table structure, not about
  rounding);
* `pandas.date_range(start, end)` at daily frequency is the inclusive range
  `[start, .., end]`, empty when `start > end`;
* a pandas `DataFrame` is a list of rows; a left merge duplicates a left row
  once per matching right row and keeps one all-NA row when nothing matches;
* the process-wide random source (`numpy.random.randn`) is threaded in as an
  explicit oracle `noise : Nat → Rat` where a factor draws samples.
-/

set_option autoImplicit false

namespace TSGen

/-- Model of `pandas.date_range(start=s, end=e, freq="D")` as day numbers: the
inclusive range `[s, s+1, ..., e]`, empty when `s > e`. -/
def dateRangeInc (s e : Int) : List Int :=
  if s ≤ e then (List.range (e - s + 1).toNat).map (fun (i : Nat) => s + (i : Int)) else []

/-- The half-open span `[s, e)` used by the spec's "exclusive of end"
wording (spec-side notion, for comparison with the code's ranges). -/
def dateRangeHalfOpen (s e : Int) : List Int :=
  if s ≤ e then (List.range (e - s).toNat).map (fun (i : Nat) => s + (i : Int)) else []

/-- Day of week of a day number, Monday = 0 .. Sunday = 6
(`pandas .dt.dayofweek`; day 0 = 1970-01-01 was a Thursday = 3). -/
def dayOfWeek (d : Int) : Nat := ((d + 3) % 7).toNat

/-- Embedding of `LinearTrend.generate`, global (`coef`/`offset`) form
(`linear_trend.py`, lines 154-161): the date index is paired by position
with `coef / len(dr) * arange(0, len(dr)) + 1 + offset`.
The Python code raises `ZeroDivisionError` on an empty range; here the
empty range just yields no rows. -/
def linearTrendGenGlobal (coef offset : Rat) (s e : Int) : List (Int × Rat) :=
  let dr := dateRangeInc s e
  let n : Rat := dr.length
  dr.enum.map (fun p => (p.2, coef / n * p.1 + 1 + offset))

/-- Embedding of `LinearTrend.generate`, per-feature-value form
(`linear_trend.py`, lines 127-152): cartesian product of the date index with
the `(feature value, coef, offset)` records, then
`coef / len(dr) * days + 1 + offset` where `days = date - dr.iloc[0]`.
Rows are `(date, feature value, factor value)`. -/
def linearTrendGenFeat (fvs : List (String × Rat × Rat)) (s e : Int) :
    List (Int × String × Rat) :=
  let dr := dateRangeInc s e
  let n : Rat := dr.length
  let start0 := dr.head?.getD 0
  dr.flatMap (fun d =>
    fvs.map (fun v => (d, v.1, v.2.1 / n * ((d - start0 : Int) : Rat) + 1 + v.2.2)))

/-- Embedding of `WeekdayFactor.generate` with an explicit `end_date`
(`weekday_factor.py`, lines 49-75): map each date of the inclusive index
through the sparse `factor_values` override (default 1) times
`intensity_scale`, then keep only dates with `start ≤ date < end`. -/
def weekdayFactorGen (factorValues : List (Nat × Rat)) (intensity : Rat)
    (s e : Int) : List (Int × Rat) :=
  let df := (dateRangeInc s e).map
    (fun d => (d, ((factorValues.lookup (dayOfWeek d)).getD 1) * intensity))
  df.filter (fun r => s ≤ r.1 && r.1 < e)

/-- Embedding of the construction-time validation of `BaseFactor.__init__`
(`base_factor.py`, lines 29-38): `features=None` resolves to the empty
mapping; a truthy (non-empty) feature mapping together with
`apply_to_all=True` raises `AttributeError`, otherwise the factor's
`features`/`apply_to_all` state is recorded.  The feature mapping is a
list of `(feature name, value labels)` pairs. -/
def baseFactorInit (features : Option (List (String × List String)))
    (applyToAll : Bool) : Except String (List (String × List String) × Bool) :=
  let fs := features.getD []
  if applyToAll && !fs.isEmpty then
    .error "Factor cannot apply to all features, while specifying a feature."
  else
    .ok (fs, applyToAll)

/-- Truthiness of the `stdev_factor` argument of `WhiteNoise.__init__`:
`None` and `0` are falsy, any other number is truthy. -/
def stdevTruthy : Option Rat → Bool
  | none => false
  | some q => q != 0

/-- The configuration state recorded by a successfully constructed
`WhiteNoise` factor. -/
structure WhiteNoiseCfg where
  stdevFactor : Option Rat
  featureValues : Option (List (String × List (String × Rat)))
  features : List (String × List String)
  applyToAll : Bool
deriving DecidableEq, Repr

/-- Embedding of `WhiteNoise.__init__` (`white_noise.py`, lines 16-67): fails unless
exactly one of `stdev_factor` / `feature_values` is truthy, fails when more
than one feature is customized, otherwise records the per-feature-value
mapping as the factor's features (with `apply_to_all=False`), or no features
with `apply_to_all=True`.  `feature_values` maps a feature name to
`(value label, stdev)` pairs; like a Python dict, `None` and the empty
mapping are falsy. -/
def whiteNoiseInit (stdevFactor : Option Rat)
    (featureValues : Option (List (String × List (String × Rat)))) :
    Except String WhiteNoiseCfg :=
  let fv := featureValues.getD []
  if (stdevTruthy stdevFactor && !fv.isEmpty)
      || !(stdevTruthy stdevFactor || !fv.isEmpty) then
    .error "Either set `stdev_factor` or `feature_values`"
  else if !fv.isEmpty then
    if fv.length > 1 then
      .error "WhiteNoise, can only set feature values on one feature"
    else
      (baseFactorInit (some (fv.map (fun p => (p.1, p.2.map Prod.fst)))) false).map
        (fun b => ⟨stdevFactor, featureValues, b.1, b.2⟩)
  else
    (baseFactorInit none true).map
      (fun b => ⟨stdevFactor, featureValues, b.1, b.2⟩)

/-- A row of the intermediate `factor_df` in `WhiteNoise.generate`'s
per-feature-value branch: a date, the feature's value label, and the
numeric cells added so far (only `"noise_1"`, holding the row's
standard-normal draw). -/
structure WNRow where
  date : Int
  featVal : String
  cells : List (String × Rat)
deriving DecidableEq, Repr

/-- Embedding of `get_factor_col` inside `WhiteNoise.generate`
(`white_noise.py`, lines 107-109): look the row's feature value up in the
configured stdev mapping, then read the row's `"noise1"` column; a missing
key is a Python `KeyError`. -/
def wnGetFactorCol (stdevs : List (String × Rat)) (row : WNRow) :
    Except String Rat :=
  match stdevs.lookup row.featVal with
  | none => .error "KeyError"
  | some stdev =>
    match row.cells.lookup "noise1" with
    | none => .error "KeyError: noise1"
    | some z => .ok (stdev * z + 1)

/-- The per-feature-value branch of `WhiteNoise.generate`
(`white_noise.py`, lines 94-113): build the cartesian product of the date
index with the feature's value labels, attach one `randn` draw per row in
column `"noise_1"`, then apply `get_factor_col` row-wise.  `noise i` is the
`i`-th sample of the process-wide random source.  The result is the factor
column that `.apply` would produce, or the error the first failing row
raises. -/
def whiteNoiseGenFeat (stdevs : List (String × Rat)) (noise : Nat → Rat)
    (s e : Int) : Except String (List Rat) :=
  let dr := dateRangeInc s e
  let rows : List WNRow :=
    (dr.flatMap (fun d => (stdevs.map Prod.fst).map (fun v => (d, v)))).enum.map
      (fun p => ⟨p.2.1, p.2.2, [("noise_1", noise p.1)]⟩)
  rows.mapM (wnGetFactorCol stdevs)

/-- A row of the engine's running table: the date, the feature-value
assignment (one label per engine feature, in feature order), the constant
`base_amount` column, and the numeric columns added by factor merges (in
column order). -/
structure Row where
  date : Int
  feats : List (String × String)
  baseAmount : Rat
  cells : List (String × Rat)
deriving DecidableEq, Repr

/-- A row of a factor's generated `DataFrame`: the date, the factor's own
feature-value assignment (its declared features only), and the factor's
value column. -/
structure FRow where
  date : Int
  feats : List (String × String)
  value : Rat
deriving DecidableEq, Repr

/-- A factor as the engine sees it (`base_factor.py`): its output column
name, its (mutable) declared features, the `apply_to_all` flag, and its
`generate` implementation — a function of the declared features (read from
`self` at generation time) and of the start/end dates the engine passes in.
All factors of the model are deterministic: the random ones draw from an
oracle fixed inside `gen`. -/
structure Factor where
  colName : String
  features : List (String × List String)
  applyToAll : Bool
  gen : List (String × List String) → Int → Int → List FRow

/-- The engine's error taxonomy (the `timeseries_generator.errors` module,
imported by `generator.py`).  Modelled from the spec: `errors.py` itself is
not among the provided sources; the spec's §7 names a duplicate-name error
carrying the colliding names, raised at generation time. -/
inductive GenError where
  | duplicateName (names : List String)
deriving DecidableEq, Repr

/-- Model of `itertools.product(*features.values())`: all feature-value assignments,
first feature outermost, each assignment tagged with its feature names. -/
def featureCombos : List (String × List String) → List (List (String × String))
  | [] => [[]]
  | (n, vs) :: rest =>
    vs.flatMap (fun v => (featureCombos rest).map (fun c => (n, v) :: c))

/-- The skeleton table of `Generator.generate`
(`generator.py`, lines 82-88): `product(date_range, *features.values())`
with a constant `base_amount` column and no factor columns yet. -/
def skeleton (dr : List Int) (features : List (String × List String))
    (base : Rat) : List Row :=
  dr.flatMap (fun d => (featureCombos features).map (fun c => ⟨d, c, base, []⟩))

/-- Whether a table row and a factor row agree on all merge keys: the
factor's declared feature names plus `"date"`
(`generator.py`, line 105). -/
def rowMatches (keys : List String) (r : Row) (fr : FRow) : Bool :=
  r.date == fr.date && keys.all (fun k => r.feats.lookup k == fr.feats.lookup k)

/-- One left merge plus `fillna(1)` (`generator.py`, lines 102-108): each
table row is replicated once per matching factor row, taking the factor's
value into a new column `col`; a row with no match keeps a single copy with
the neutral value 1 in `col`. -/
def mergeFactor (rows : List Row) (keys : List String) (col : String)
    (df : List FRow) : List Row :=
  rows.flatMap (fun r =>
    match df.filter (rowMatches keys r) with
    | [] => [{ r with cells := r.cells ++ [(col, 1)] }]
    | ms => ms.map (fun fr => { r with cells := r.cells ++ [(col, fr.value)] }))

/-- Assignment `df[col] = v` on one row: overwrite the existing column in place (a
`DataFrame` holds each column name once), else append a new column. -/
def setCell : List (String × Rat) → String → Rat → List (String × Rat)
  | [], n, v => [(n, v)]
  | c :: t, n, v => if c.1 = n then (n, v) :: t else c :: setCell t n v

/-- Reading a numeric column of a row (`ts[name]` for one row); on the
successful path of `generate` every read column exists. -/
def getCell (r : Row) (n : String) : Rat :=
  (r.cells.lookup n).getD 0

/-- The engine (`generator.py`): the factor set (a list, fixing the
iteration order of the Python set), the feature domain, the date range, the
base value, and the stored result table `_ts`. -/
structure Generator where
  factors : List Factor
  features : List (String × List String)
  dateRange : List Int
  baseValue : Rat
  ts : Option (List Row)

/-- The `apply_to_all` rebinding (`generator.py`, lines 92-93): just before
a factor generates, `f.features = self._features` when the factor is marked
apply-to-all.  This mutates the stored factor in place. -/
def applyAll (g : Generator) (f : Factor) : Factor :=
  if f.applyToAll then { f with features := g.features } else f

/-- The table a factor hands to the engine (`generator.py`, lines 94-96):
after the apply-to-all rebinding, `f.generate(start_date=date_range[0],
end_date=date_range[-1])`. -/
def factorDf (g : Generator) (f : Factor) : List FRow :=
  let f' := applyAll g f
  f'.gen f'.features (g.dateRange.head?.getD 0) (g.dateRange.getLast?.getD 0)

/-- The merge keys of one factor: its (rebound) declared feature names; the
`"date"` key is handled separately by `rowMatches`
(`generator.py`, line 105). -/
def mergeKeys (g : Generator) (f : Factor) : List String :=
  (applyAll g f).features.map Prod.fst

/-- One iteration of the merge loop (`generator.py`, lines 91-108): rebind
an apply-to-all factor's features, generate its table, and left-merge it
onto the running table, filling gaps with factor 1. -/
def mergeStep (g : Generator) (rows : List Row) (f : Factor) : List Row :=
  mergeFactor rows (mergeKeys g f) (applyAll g f).colName (factorDf g f)

/-- Appending the derived columns (`generator.py`, lines 116-117):
`total_factor` is the row-wise product of all factor columns and `value`
is `total_factor * base_amount`. -/
def finalizeRow (names : List String) (r : Row) : Row :=
  let c1 := setCell r.cells "total_factor" ((names.map (getCell r)).prod)
  let r1 : Row := { r with cells := c1 }
  { r1 with
    cells := setCell r1.cells "value" (getCell r1 "total_factor" * r1.baseAmount) }

/-- Embedding of `Generator.generate` (`generator.py`, lines 70-120): build the skeleton,
merge every factor in order (persisting any apply-to-all rebinding on the
stored factor set), then check factor-name uniqueness (`len(factor_names)
!= len(set(factor_names))`) and either raise the duplicate-name error —
leaving the stored `_ts` unchanged — or append the `total_factor` and
`value` columns, store and return the table. -/
def Generator.generate (g : Generator) : Generator × Except GenError (List Row) :=
  let ts0 := skeleton g.dateRange g.features g.baseValue
  let ts1 := g.factors.foldl (mergeStep g) ts0
  let newFactors := g.factors.map (applyAll g)
  let names := newFactors.map (·.colName)
  if names.length ≠ names.dedup.length then
    ({ g with factors := newFactors }, .error (.duplicateName names))
  else
    let final := ts1.map (finalizeRow names)
    ({ g with factors := newFactors, ts := some final }, .ok final)

/-- Recursion of `clean_holiday_tuples` (`holiday_factor.py`, lines 84-100)
with the `visited` set of already-seen dates made explicit. -/
def cleanHolidayAux (visited : List Int) :
    List (Int × String) → List (Int × String)
  | [] => []
  | (a, b) :: rest =>
    if a ∈ visited then cleanHolidayAux visited rest
    else (a, b) :: cleanHolidayAux (a :: visited) rest

/-- Embedding of `clean_holiday_tuples` (`holiday_factor.py`, lines 84-100): walk the
`(date, holiday name)` pairs in order, keeping a pair only when its date has
not been seen before. -/
def cleanHolidayTuples (l : List (Int × String)) : List (Int × String) :=
  cleanHolidayAux [] l

/-! Concrete engines used to exercise the engine-level theorems. -/

/-- A trivial factor named `"x"` that contributes no rows. -/
def xFactor : Factor :=
  { colName := "x", features := [], applyToAll := false, gen := fun _ _ _ => [] }

/-- An engine holding two factor instances that share `col_name="x"`
(the duplicate-name scenario). -/
def dupEngine : Generator :=
  { factors := [xFactor, xFactor], features := [("product", ["a", "b"])],
    dateRange := [0, 1], baseValue := 1, ts := none }

/-- A deterministic factor: value 2 on feature values `"a"`/`"b"` of
feature `"product"`, every day of the inclusive range the engine asks
for. -/
def constProductFactor : Factor :=
  { colName := "f", features := [("product", ["a", "b"])], applyToAll := false,
    gen := fun feats s e =>
      (dateRangeInc s e).flatMap
        (fun d => (featureCombos feats).map (fun c => ⟨d, c, 2⟩)) }

/-- An engine whose feature `product` declares three values while its only
factor covers just two of them (the unrepresented-feature-value
scenario). -/
def sparseCoverEngine : Generator :=
  { factors := [constProductFactor], features := [("product", ["a", "b", "c"])],
    dateRange := [0, 1], baseValue := 5, ts := none }

/-- The table `sparseCoverEngine.generate` returns (spelled out as the
merge pipeline applied to that engine). -/
def sparseCoverTable : List Row :=
  (sparseCoverEngine.factors.foldl (mergeStep sparseCoverEngine)
      (skeleton sparseCoverEngine.dateRange sparseCoverEngine.features
        sparseCoverEngine.baseValue)).map
    (finalizeRow
      ((sparseCoverEngine.factors.map (applyAll sparseCoverEngine)).map
        (·.colName)))

end TSGen

namespace TSGen

/-! Section: Helper lemmas about association-list lookups -/

theorem lookup_append (xs ys : List (String × Rat)) (k : String) :
    (xs ++ ys).lookup k = ((xs.lookup k).orElse (fun _ => ys.lookup k)) := by
  induction xs with
  | nil => simp [List.lookup]
  | cons h t ih => by_cases hk : k == h.1 <;> simp [List.lookup, hk, ih]

theorem lookup_eq_none_of_notMem {xs : List (String × Rat)} {k : String}
    (h : k ∉ xs.map Prod.fst) : xs.lookup k = none := by
  induction xs with
  | nil => simp [List.lookup]
  | cons c t ih =>
    simp only [List.map_cons, List.mem_cons] at h
    push_neg at h
    have hk : (k == c.1) = false := by simpa using h.1
    simp [List.lookup, hk, ih h.2]

theorem lookup_setCell_self (cells : List (String × Rat)) (n : String) (v : Rat) :
    (setCell cells n v).lookup n = some v := by
  induction cells with
  | nil => simp [setCell, List.lookup]
  | cons c t ih =>
    by_cases hc : c.1 = n
    · simp [setCell, hc, List.lookup]
    · have hk : (n == c.1) = false := by simpa using (Ne.symm hc)
      simp [setCell, hc, List.lookup, hk, ih]

theorem lookup_setCell_ne (cells : List (String × Rat)) {n m : String} (v : Rat)
    (h : m ≠ n) : (setCell cells n v).lookup m = cells.lookup m := by
  induction cells with
  | nil => simp [setCell, List.lookup, show (m == n) = false by simpa using h]
  | cons c t ih =>
    by_cases hc : c.1 = n
    · have hk : (m == n) = false := by simpa using h
      simp [setCell, hc, List.lookup, hk]
    · by_cases hm : m = c.1
      · simp [setCell, hc, List.lookup, hm]
      · have hk : (m == c.1) = false := by simpa using hm
        simp [setCell, hc, List.lookup, hk, ih]

theorem dedup_length_eq_iff (l : List String) :
    l.length = l.dedup.length ↔ l.Nodup := by
  constructor
  · intro h
    exact List.dedup_eq_self.mp ((l.dedup_sublist).eq_of_length h.symm)
  · intro h
    rw [List.dedup_eq_self.mpr h]

/-! Section: Helper lemmas about date ranges -/

theorem dateRangeHalfOpen_length (s e : Int) (h : s ≤ e) :
    (dateRangeHalfOpen s e).length = (e - s).toNat := by
  simp [dateRangeHalfOpen, h]

theorem dateRangeInc_eq_append (s e : Int) (h : s ≤ e) :
    dateRangeInc s e = dateRangeHalfOpen s e ++ [e] := by
  have h0 : (0 : Int) ≤ e - s := by omega
  have ht : (e - s + 1).toNat = (e - s).toNat + 1 := by omega
  have he : s + ((e - s).toNat : Int) = e := by omega
  simp only [dateRangeInc, dateRangeHalfOpen, if_pos h, ht, List.range_succ,
    List.map_append, List.map_cons, List.map_nil, he]

theorem mem_dateRangeHalfOpen {s e d : Int} :
    d ∈ dateRangeHalfOpen s e ↔ s ≤ d ∧ d < e := by
  unfold dateRangeHalfOpen
  by_cases h : s ≤ e
  · simp only [if_pos h, List.mem_map, List.mem_range]
    constructor
    · rintro ⟨i, hi, rfl⟩
      omega
    · rintro ⟨h1, h2⟩
      exact ⟨(d - s).toNat, by omega, by omega⟩
  · simp only [if_neg h, List.not_mem_nil, false_iff]
    omega

theorem mem_dateRangeInc {s e d : Int} :
    d ∈ dateRangeInc s e ↔ s ≤ d ∧ d ≤ e := by
  unfold dateRangeInc
  by_cases h : s ≤ e
  · simp only [if_pos h, List.mem_map, List.mem_range]
    constructor
    · rintro ⟨i, hi, rfl⟩
      omega
    · rintro ⟨h1, h2⟩
      exact ⟨(d - s).toNat, by omega, by omega⟩
  · simp only [if_neg h, List.not_mem_nil, false_iff]
    omega

theorem dateRangeInc_length (s e : Int) (h : s ≤ e) :
    (dateRangeInc s e).length = (e - s + 1).toNat := by
  simp [dateRangeInc, h]

theorem dateRangeInc_getElem? (s e : Int) (h : s ≤ e) (i : Nat)
    (hi : i < (e - s + 1).toNat) : (dateRangeInc s e)[i]? = some (s + i) := by
  simp [dateRangeInc, h, List.getElem?_map, List.getElem?_range hi]

theorem dateRangeInc_head (s e : Int) (h : s ≤ e) :
    (dateRangeInc s e).head?.getD 0 = s := by
  have h1 : (dateRangeInc s e)[0]? = some (s + (0 : Nat)) :=
    dateRangeInc_getElem? s e h 0 (by omega)
  rw [← List.head?_eq_getElem?] at h1
  simp [h1]

end TSGen

namespace TSGen

/-! Section: Construction-time validation (claims C8, C10) -/

/-- Claim C8: Constructing any factor with `apply_to_all=true` together with a
non-empty declared feature subset fails with the configuration error;
construction succeeds — with respect to this check — whenever
`apply_to_all` is false or the feature subset is empty (a `None` feature
mapping resolves to the empty one). -/
theorem baseFactor_applyToAll_validation
    (features : Option (List (String × List String))) (a2a : Bool) :
    (a2a = true → features.getD [] ≠ [] →
      baseFactorInit features a2a =
        .error "Factor cannot apply to all features, while specifying a feature.")
    ∧ ((a2a = false ∨ features.getD [] = []) →
      baseFactorInit features a2a = .ok (features.getD [], a2a)) := by
  constructor
  · intro ha hf
    have hemp : (features.getD []).isEmpty = false := by
      cases hx : features.getD [] with
      | nil => exact absurd hx hf
      | cons c t => simp
    simp [baseFactorInit, ha, hemp]
  · rintro (ha | hf)
    · simp [baseFactorInit, ha]
    · simp [baseFactorInit, hf]

/-- Witness for C8: a factor declaring feature `country` together with
`apply_to_all` is rejected; the same feature subset without the flag is
accepted. -/
theorem baseFactor_applyToAll_validation_witness :
    baseFactorInit (some [("country", ["NL"])]) true =
      .error "Factor cannot apply to all features, while specifying a feature." ∧
    baseFactorInit (some [("country", ["NL"])]) false =
      .ok ([("country", ["NL"])], false) :=
  ⟨(baseFactor_applyToAll_validation (some [("country", ["NL"])]) true).1 rfl
      (by simp),
   (baseFactor_applyToAll_validation (some [("country", ["NL"])]) false).2
      (Or.inl rfl)⟩

/-- Claim C10: With `feature_values` supplied and `stdev_factor` left at its
truthy default `0.05`, `WhiteNoise.__init__` raises the either/or
configuration error; the per-feature-value form is constructible exactly
when `stdev_factor` is falsy (`0` or `None`) — and the single customized
feature passes the one-feature check. -/
theorem whiteNoise_init_stdev_truthiness
    (fv : List (String × List (String × Rat))) (hfv : fv ≠ []) :
    whiteNoiseInit (some (1/20)) (some fv) =
      .error "Either set `stdev_factor` or `feature_values`"
    ∧ ∀ sf : Option Rat,
      (whiteNoiseInit sf (some fv)).isOk = true ↔
        (stdevTruthy sf = false ∧ fv.length = 1) := by
  have hemp : fv.isEmpty = false := by
    cases hx : fv with
    | nil => exact absurd hx hfv
    | cons c t => simp
  have hlen1 : 1 ≤ fv.length := by
    cases hx : fv with
    | nil => exact absurd hx hfv
    | cons c t => simp
  constructor
  · have hst : stdevTruthy (some (1/20)) = true := by
      simp only [stdevTruthy, bne_iff_ne, ne_eq, decide_eq_true_eq]
      norm_num
    simp only [whiteNoiseInit, Option.getD_some, hst, hemp]
    rfl
  · intro sf
    cases hst : stdevTruthy sf with
    | true => simp [whiteNoiseInit, hst, hemp, Except.isOk, Except.toBool]
    | false =>
      by_cases hlen : fv.length > 1
      · have hne : fv.length ≠ 1 := by omega
        simp [whiteNoiseInit, hst, hemp, hlen, Except.isOk, Except.toBool, hne]
      · have heq : fv.length = 1 := by omega
        simp [whiteNoiseInit, hst, hemp, hlen, baseFactorInit, Except.isOk,
          Except.toBool, Except.map, heq]

/-- Witness for C10: one customized feature value on feature `store`; the
default `stdev_factor=0.05` is rejected, while passing `stdev_factor` as
`None` or `0` constructs successfully. -/
theorem whiteNoise_init_stdev_truthiness_witness :
    (whiteNoiseInit (some (1/20)) (some [("store", [("a", 1)])]) =
      .error "Either set `stdev_factor` or `feature_values`")
    ∧ ((whiteNoiseInit none (some [("store", [("a", 1)])])).isOk = true ↔
        (stdevTruthy none = false ∧ [("store", [("a", (1 : Rat))])].length = 1)) :=
  ⟨(whiteNoise_init_stdev_truthiness [("store", [("a", 1)])]
      (List.cons_ne_nil _ _)).1,
   (whiteNoise_init_stdev_truthiness [("store", [("a", 1)])]
      (List.cons_ne_nil _ _)).2 none⟩

/-! Section: Holiday-overlap resolution (claim C9) -/

theorem cleanHolidayAux_sublist (visited : List Int) (l : List (Int × String)) :
    (cleanHolidayAux visited l).Sublist l := by
  induction l generalizing visited with
  | nil => simp [cleanHolidayAux]
  | cons p rest ih =>
    obtain ⟨a, b⟩ := p
    by_cases h : a ∈ visited
    · simp only [cleanHolidayAux, if_pos h]
      exact (ih visited).cons _
    · simp only [cleanHolidayAux, if_neg h]
      exact (ih (a :: visited)).cons₂ _

theorem cleanHolidayAux_find (visited : List Int) (l : List (Int × String)) :
    ∀ p ∈ cleanHolidayAux visited l,
      p.1 ∉ visited ∧ l.find? (fun q => q.1 == p.1) = some p := by
  induction l generalizing visited with
  | nil => simp [cleanHolidayAux]
  | cons hd rest ih =>
    obtain ⟨a, b⟩ := hd
    intro p hp
    by_cases h : a ∈ visited
    · rw [cleanHolidayAux, if_pos h] at hp
      obtain ⟨hnv, hfind⟩ := ih visited p hp
      have hne : (a == p.1) = false := by
        have hx : a ≠ p.1 := fun hh => hnv (hh ▸ h)
        simpa using hx
      refine ⟨hnv, ?_⟩
      rw [List.find?_cons]
      simp [hne, hfind]
    · rw [cleanHolidayAux, if_neg h] at hp
      rcases List.mem_cons.mp hp with rfl | hp'
      · exact ⟨h, by simp [List.find?_cons]⟩
      · obtain ⟨hnv, hfind⟩ := ih (a :: visited) p hp'
        have hpa : (a == p.1) = false := by
          have hx : p.1 ≠ a := fun hh => hnv (by simp [hh])
          simpa using hx.symm
        refine ⟨fun hv => hnv (List.mem_cons_of_mem _ hv), ?_⟩
        rw [List.find?_cons]
        simp [hpa, hfind]

theorem cleanHolidayAux_nodup (visited : List Int) (l : List (Int × String)) :
    ((cleanHolidayAux visited l).map Prod.fst).Nodup := by
  induction l generalizing visited with
  | nil => simp [cleanHolidayAux]
  | cons hd rest ih =>
    obtain ⟨a, b⟩ := hd
    by_cases h : a ∈ visited
    · simpa [cleanHolidayAux, if_pos h] using ih visited
    · simp only [cleanHolidayAux, if_neg h, List.map_cons]
      refine List.nodup_cons.mpr ⟨?_, ih (a :: visited)⟩
      intro hmem
      obtain ⟨p, hp, hpa⟩ := List.mem_map.mp hmem
      exact (cleanHolidayAux_find (a :: visited) rest p hp).1 (by simp [hpa])

theorem cleanHolidayAux_covers (visited : List Int) (l : List (Int × String)) :
    ∀ p ∈ l, p.1 ∈ visited ∨ ∃ q ∈ cleanHolidayAux visited l, q.1 = p.1 := by
  induction l generalizing visited with
  | nil => simp
  | cons hd rest ih =>
    obtain ⟨a, b⟩ := hd
    intro p hp
    by_cases h : a ∈ visited
    · rcases List.mem_cons.mp hp with rfl | hp'
      · exact Or.inl h
      · rcases ih visited p hp' with hv | ⟨q, hq, hqa⟩
        · exact Or.inl hv
        · refine Or.inr ⟨q, ?_, hqa⟩
          rw [cleanHolidayAux, if_pos h]
          exact hq
    · rcases List.mem_cons.mp hp with rfl | hp'
      · refine Or.inr ⟨(a, b), ?_, rfl⟩
        rw [cleanHolidayAux, if_neg h]
        exact List.mem_cons_self _ _
      · rcases ih (a :: visited) p hp' with hv | ⟨q, hq, hqa⟩
        · rcases List.mem_cons.mp hv with h1 | h2
          · refine Or.inr ⟨(a, b), ?_, h1.symm⟩
            rw [cleanHolidayAux, if_neg h]
            exact List.mem_cons_self _ _
          · exact Or.inl h2
        · refine Or.inr ⟨q, ?_, hqa⟩
          rw [cleanHolidayAux, if_neg h]
          exact List.mem_cons_of_mem _ hq

/-- Claim C9: `clean_holiday_tuples` keeps, for each date, only the
first-seen `(date, name)` pair, in the original encounter order: the result
is a subsequence of the input, its dates are pairwise distinct, every kept
pair is the first pair of the input carrying its date, and every date that
occurs in the input is still represented in the result. -/
theorem cleanHolidayTuples_spec (l : List (Int × String)) :
    (cleanHolidayTuples l).Sublist l
    ∧ ((cleanHolidayTuples l).map Prod.fst).Nodup
    ∧ (∀ p ∈ cleanHolidayTuples l, l.find? (fun q => q.1 == p.1) = some p)
    ∧ (∀ p ∈ l, ∃ q ∈ cleanHolidayTuples l, q.1 = p.1) :=
  ⟨cleanHolidayAux_sublist [] l, cleanHolidayAux_nodup [] l,
   fun p hp => (cleanHolidayAux_find [] l p hp).2,
   fun p hp => (cleanHolidayAux_covers [] l p hp).resolve_left
     (List.not_mem_nil _)⟩

/-- Witness for C9 on the overlap example from `holiday_factor.py`'s doc
comment: two holiday names on day 1 — the kept pair for day 1 is the
first-seen one, and day 1 of the second, discarded pair is still
represented. -/
theorem cleanHolidayTuples_spec_witness :
    [((1 : Int), "Ascension Thursday"), (1, "Liberation Day"), (2, "c")].find?
      (fun q => q.1 == ((1 : Int), "Ascension Thursday").1) =
        some (1, "Ascension Thursday")
    ∧ ∃ q ∈ cleanHolidayTuples
        [((1 : Int), "Ascension Thursday"), (1, "Liberation Day"), (2, "c")],
        q.1 = ((1 : Int), "Liberation Day").1 :=
  ⟨(cleanHolidayTuples_spec _).2.2.1 (1, "Ascension Thursday") (by decide),
   (cleanHolidayTuples_spec _).2.2.2 (1, "Liberation Day") (by decide)⟩

end TSGen

namespace TSGen

/-! Section: Date spans of factor outputs (claims C3, C5) -/

theorem filter_dateRangeInc (s e : Int) :
    (dateRangeInc s e).filter (fun d => s ≤ d && d < e) = dateRangeHalfOpen s e := by
  by_cases h : s ≤ e
  · rw [dateRangeInc_eq_append s e h, List.filter_append]
    have h1 : (dateRangeHalfOpen s e).filter (fun d => s ≤ d && d < e) =
        dateRangeHalfOpen s e := by
      refine List.filter_eq_self.mpr (fun a ha => ?_)
      have hm := mem_dateRangeHalfOpen.mp ha
      simp [hm.1, hm.2]
    have h2 : [e].filter (fun d => s ≤ d && d < e) = [] := by simp
    rw [h1, h2, List.append_nil]
  · simp [dateRangeInc, dateRangeHalfOpen, h]

/-- Counterexample to C3 as stated: a `LinearTrend` over start day 0 and
end day 1 emits rows for days 0 **and** 1 — the full inclusive span — not
the half-open span `[start, end) = [0]` the claim asserts for every factor
variant. -/
theorem linearTrend_generate_includes_end_date :
    (linearTrendGenGlobal 1 0 0 1).map Prod.fst = [0, 1]
    ∧ dateRangeHalfOpen 0 1 = [0]
    ∧ (linearTrendGenGlobal 1 0 0 1).map Prod.fst ≠ dateRangeHalfOpen 0 1 := by
  refine ⟨by decide, by decide, by decide⟩

/-- Claim C3, amended: The row set of each factor variant is the cartesian
product of a date span with its declared feature values (or date-only rows
when it declares none) — but the span differs per variant: `LinearTrend`
(both forms) covers the inclusive span `[start, end]` produced by
`pandas.date_range`, while `WeekdayFactor`, which re-filters its index,
covers the half-open span `[start, end)` exclusive of the end date. -/
theorem factor_generate_date_span :
    (∀ (coef offset : Rat) (s e : Int),
      (linearTrendGenGlobal coef offset s e).map Prod.fst = dateRangeInc s e)
    ∧ (∀ (fvs : List (String × Rat × Rat)) (s e : Int),
      (linearTrendGenFeat fvs s e).map (fun r => (r.1, r.2.1)) =
        (dateRangeInc s e).flatMap
          (fun d => (fvs.map Prod.fst).map (fun v => (d, v))))
    ∧ (∀ (fv : List (Nat × Rat)) (intensity : Rat) (s e : Int),
      (weekdayFactorGen fv intensity s e).map Prod.fst = dateRangeHalfOpen s e) := by
  refine ⟨fun coef offset s e => ?_, fun fvs s e => ?_, fun fv intensity s e => ?_⟩
  · simp only [linearTrendGenGlobal, List.map_map]
    exact List.enum_map_snd (dateRangeInc s e)
  · simp only [linearTrendGenFeat, List.map_flatMap, List.map_map]
    rfl
  · rw [weekdayFactorGen]
    rw [List.filter_map]
    rw [List.map_map]
    have hc : (fun (r : Int × Rat) => s ≤ r.1 && r.1 < e) ∘
        (fun d => (d, ((fv.lookup (dayOfWeek d)).getD 1) * intensity)) =
        (fun d => s ≤ d && d < e) := rfl
    rw [hc]
    have hid : Prod.fst ∘ (fun d : Int =>
        (d, ((fv.lookup (dayOfWeek d)).getD 1) * intensity)) = id := rfl
    rw [hid, List.map_id]
    exact filter_dateRangeInc s e

/-- Claim C5: Global-form `LinearTrend` values: row `i` of the generated
table holds date `start + i` and value `coef / N * i + 1 + offset`, with
`N` the number of days of the inclusive range — `coef` is a total drift
over the range, not a per-day slope.  Consequently a per-feature-value
`LinearTrend` over a 2-day range emits, for every configured feature value,
a day-0 row whose value is exactly `1 + offset`. -/
theorem linearTrend_formula :
    (∀ (coef offset : Rat) (s e : Int), s ≤ e → ∀ i : Nat, i < (e - s + 1).toNat →
      (linearTrendGenGlobal coef offset s e)[i]? =
        some (s + (i : Int),
          coef / (((e - s + 1).toNat : Nat) : Rat) * (i : Rat) + 1 + offset))
    ∧ (∀ (fvs : List (String × Rat × Rat)) (s : Int) (v : String) (c o : Rat),
      (v, c, o) ∈ fvs → (s, v, 1 + o) ∈ linearTrendGenFeat fvs s (s + 1)) := by
  constructor
  · intro coef offset s e h i hi
    have hlen : (dateRangeInc s e).length = (e - s + 1).toNat :=
      dateRangeInc_length s e h
    rw [linearTrendGenGlobal]
    rw [List.getElem?_map]
    rw [List.getElem?_enum]
    rw [dateRangeInc_getElem? s e h i hi]
    simp [hlen]
  · intro fvs s v c o hmem
    have hs : s ≤ s + 1 := by omega
    have hd : s ∈ dateRangeInc s (s + 1) := mem_dateRangeInc.mpr ⟨le_refl s, hs⟩
    have h0 : (dateRangeInc s (s + 1)).head?.getD 0 = s :=
      dateRangeInc_head s (s + 1) hs
    rw [linearTrendGenFeat]
    rw [List.mem_flatMap]
    refine ⟨s, hd, ?_⟩
    rw [List.mem_map]
    refine ⟨(v, c, o), hmem, ?_⟩
    rw [h0]
    norm_num

end TSGen

namespace TSGen

/-- Witness for C5: a global trend with `coef=1, offset=0` over days 0-1
(`N = 2`) at row 1, and a per-feature trend `{coef: 2, offset: 3}` over the
2-day range whose day-0 row for value `"a"` is `1 + 3`. -/
theorem linearTrend_formula_witness :
    ((0 : Int) ≤ 1 ∧ 1 < ((1 : Int) - 0 + 1).toNat)
    ∧ (linearTrendGenGlobal 1 0 0 1)[1]? =
        some (0 + ((1 : Nat) : Int),
          1 / ((((1 : Int) - 0 + 1).toNat : Nat) : Rat) * ((1 : Nat) : Rat) + 1 + 0)
    ∧ ("a", (2 : Rat), (3 : Rat)) ∈ [("a", (2 : Rat), (3 : Rat))]
    ∧ ((0 : Int), "a", 1 + (3 : Rat)) ∈ linearTrendGenFeat [("a", 2, 3)] 0 (0 + 1) :=
  ⟨⟨by decide, by decide⟩,
   linearTrend_formula.1 1 0 0 1 (by decide) 1 (by decide),
   List.mem_singleton.mpr rfl,
   linearTrend_formula.2 [("a", 2, 3)] 0 "a" 2 3 (List.mem_singleton.mpr rfl)⟩

/-! Section: The WhiteNoise per-feature-value branch (claim C7) -/

theorem dateRangeInc_eq_cons (s e : Int) (h : s ≤ e) :
    ∃ t, dateRangeInc s e = s :: t := by
  have hne : dateRangeInc s e ≠ [] := by
    have hl := dateRangeInc_length s e h
    intro hnil
    rw [hnil] at hl
    simp at hl
    omega
  obtain ⟨hd, t, hcons⟩ := List.exists_cons_of_ne_nil hne
  refine ⟨t, ?_⟩
  have hh := dateRangeInc_head s e h
  rw [hcons] at hh ⊢
  simp at hh
  rw [hh]

/-- Claim C7, as the code actually behaves: The per-feature-value branch
of `WhiteNoise.generate` never produces a value table: the code stores the
per-row normal draws in column `"noise_1"` but `get_factor_col` reads
column `"noise1"`, so on any non-empty row set the very first row raises
`KeyError: 'noise1'` — instead of the documented `1 + stdev * z` per row. -/
theorem whiteNoise_perFeature_keyError (stdevs : List (String × Rat))
    (noise : Nat → Rat) (s e : Int) (hst : stdevs ≠ []) (h : s ≤ e) :
    whiteNoiseGenFeat stdevs noise s e = .error "KeyError: noise1" := by
  obtain ⟨t, hdr⟩ := dateRangeInc_eq_cons s e h
  obtain ⟨⟨v0, σ0⟩, st, hsts⟩ :
      ∃ (p : String × Rat) (st : List (String × Rat)), stdevs = p :: st := by
    obtain ⟨p, st, hx⟩ := List.exists_cons_of_ne_nil hst
    exact ⟨p, st, hx⟩
  subst hsts
  have hrow0 : wnGetFactorCol ((v0, σ0) :: st) ⟨s, v0, [("noise_1", noise 0)]⟩ =
      .error "KeyError: noise1" := by
    rw [wnGetFactorCol]
    simp [List.lookup]
  rw [whiteNoiseGenFeat, hdr]
  simp only [List.map_cons, List.flatMap_cons, List.cons_append, List.enum]
  rw [List.enumFrom]
  simp only [List.map_cons]
  rw [List.mapM_cons]
  rw [hrow0]
  rfl

/-- Witness for C7: one customized value `"a"` on one day — `generate`
raises the `KeyError` instead of returning a table. -/
theorem whiteNoise_perFeature_keyError_witness :
    ([("a", (1 : Rat))] ≠ [] ∧ (0 : Int) ≤ 0)
    ∧ whiteNoiseGenFeat [("a", 1)] (fun _ => 0) 0 0 = .error "KeyError: noise1" :=
  ⟨⟨List.cons_ne_nil _ _, by decide⟩,
   whiteNoise_perFeature_keyError [("a", 1)] (fun _ => 0) 0 0
     (List.cons_ne_nil _ _) (by decide)⟩

end TSGen

namespace TSGen

/-! Section: Engine helper lemmas -/

theorem applyAll_colName (g : Generator) (f : Factor) :
    (applyAll g f).colName = f.colName := by
  rw [applyAll]
  split <;> rfl

theorem applyAll_idem (g : Generator) (f : Factor) :
    applyAll g (applyAll g f) = applyAll g f := by
  by_cases hb : f.applyToAll
  · simp [applyAll, hb]
  · simp [applyAll, hb]

theorem applyAll_congr {g g' : Generator} (h : g'.features = g.features) :
    applyAll g' = applyAll g := by
  funext f
  rw [applyAll, applyAll, h]

theorem mergeStep_congr {g g' : Generator} (hf : g'.features = g.features)
    (hd : g'.dateRange = g.dateRange) : mergeStep g' = mergeStep g := by
  funext rows f
  rw [mergeStep, mergeStep, mergeKeys, mergeKeys, factorDf, factorDf,
    applyAll_congr hf, hd]

theorem mergeStep_applyAll (g : Generator) (rows : List Row) (f : Factor) :
    mergeStep g rows (applyAll g f) = mergeStep g rows f := by
  rw [mergeStep, mergeStep, mergeKeys, mergeKeys, factorDf, factorDf,
    applyAll_idem]

theorem map_applyAll_colName (g : Generator) (fs : List Factor) :
    (fs.map (applyAll g)).map (·.colName) = fs.map (·.colName) := by
  rw [List.map_map]
  exact List.map_congr_left (fun f _ => applyAll_colName g f)

/-- Computation rule for `Generator.generate` in the duplicate-name case. -/
theorem generate_dup (g : Generator)
    (hc : ((g.factors.map (applyAll g)).map (·.colName)).length ≠
      ((g.factors.map (applyAll g)).map (·.colName)).dedup.length) :
    g.generate = ({ g with factors := g.factors.map (applyAll g) },
      .error (.duplicateName ((g.factors.map (applyAll g)).map (·.colName)))) := by
  simp only [Generator.generate]
  rw [if_pos hc]

/-- Computation rule for `Generator.generate` in the successful case. -/
theorem generate_nodup (g : Generator)
    (hc : ¬ ((g.factors.map (applyAll g)).map (·.colName)).length ≠
      ((g.factors.map (applyAll g)).map (·.colName)).dedup.length) :
    g.generate = ({ g with
        factors := g.factors.map (applyAll g)
        ts := some ((g.factors.foldl (mergeStep g)
            (skeleton g.dateRange g.features g.baseValue)).map
          (finalizeRow ((g.factors.map (applyAll g)).map (·.colName)))) },
      .ok ((g.factors.foldl (mergeStep g)
            (skeleton g.dateRange g.features g.baseValue)).map
        (finalizeRow ((g.factors.map (applyAll g)).map (·.colName))))) := by
  simp only [Generator.generate]
  rw [if_neg hc]

end TSGen

namespace TSGen

/-- Claim C4: When two or more factors share a `col_name`, `generate` raises
the duplicate-name error carrying the full (colliding) name list, and the
engine's stored result table `_ts` is left unchanged — no partial table is
produced. -/
theorem generate_duplicate_name_error (g : Generator)
    (hdup : ¬ (g.factors.map (·.colName)).Nodup) :
    g.generate.2 = .error (.duplicateName (g.factors.map (·.colName)))
    ∧ (g.generate.1).ts = g.ts := by
  have hnames := map_applyAll_colName g g.factors
  have hc : ((g.factors.map (applyAll g)).map (·.colName)).length ≠
      ((g.factors.map (applyAll g)).map (·.colName)).dedup.length := by
    rw [hnames]
    intro hcontra
    exact hdup ((dedup_length_eq_iff _).mp hcontra)
  rw [generate_dup g hc]
  exact ⟨by rw [hnames], rfl⟩

/-- Witness for C4: an engine holding two factor instances named `"x"`. -/
theorem generate_duplicate_name_error_witness :
    (¬ (dupEngine.factors.map (·.colName)).Nodup)
    ∧ dupEngine.generate.2 =
        .error (.duplicateName (dupEngine.factors.map (·.colName)))
    ∧ (dupEngine.generate.1).ts = dupEngine.ts := by
  have hdup : ¬ (dupEngine.factors.map (·.colName)).Nodup := by
    simp [dupEngine, xFactor]
  exact ⟨hdup, (generate_duplicate_name_error dupEngine hdup).1,
    (generate_duplicate_name_error dupEngine hdup).2⟩

/-- Claim C6: `generate` is idempotent in the model, where every factor's
`gen` is a fixed function (the deterministic factors; the random ones would
redraw from the process-wide source): a second call returns the same table
— and the same engine state — as the first, despite the `apply_to_all`
rebinding persisted by the first call, because the rebinding is itself
idempotent. -/
theorem generate_idempotent (g : Generator) :
    (g.generate.1).generate = (g.generate.1, g.generate.2) := by
  obtain ⟨fs, feats, dr, base, ts⟩ := g
  set g0 : Generator := ⟨fs, feats, dr, base, ts⟩ with hg0
  have hidem : (fs.map (applyAll g0)).map (applyAll g0) = fs.map (applyAll g0) := by
    rw [List.map_map]
    exact List.map_congr_left (fun f _ => applyAll_idem g0 f)
  have hstep : (fun (acc : List Row) f => mergeStep g0 acc (applyAll g0 f)) =
      mergeStep g0 := by
    funext acc f
    exact mergeStep_applyAll g0 acc f
  by_cases hc : ((fs.map (applyAll g0)).map (·.colName)).length ≠
      ((fs.map (applyAll g0)).map (·.colName)).dedup.length
  · have h1 := generate_dup g0 hc
    rw [h1]
    set g1 : Generator := { g0 with factors := fs.map (applyAll g0) } with hg1
    have hAA : applyAll g1 = applyAll g0 := applyAll_congr rfl
    have hc1 : ((g1.factors.map (applyAll g1)).map (·.colName)).length ≠
        ((g1.factors.map (applyAll g1)).map (·.colName)).dedup.length := by
      show (((fs.map (applyAll g0)).map (applyAll g1)).map (·.colName)).length ≠
        (((fs.map (applyAll g0)).map (applyAll g1)).map (·.colName)).dedup.length
      rw [hAA, hidem]
      exact hc
    have h2 := generate_dup g1 hc1
    rw [h2]
    have hfac : g1.factors.map (applyAll g1) = fs.map (applyAll g0) := by
      show (fs.map (applyAll g0)).map (applyAll g1) = fs.map (applyAll g0)
      rw [hAA, hidem]
    rw [hfac]
  · have h1 := generate_nodup g0 hc
    rw [h1]
    set tbl := ((fs.foldl (mergeStep g0)
        (skeleton g0.dateRange g0.features g0.baseValue)).map
      (finalizeRow ((fs.map (applyAll g0)).map (·.colName)))) with htbl
    set g1 : Generator :=
      { g0 with factors := fs.map (applyAll g0), ts := some tbl } with hg1
    have hAA : applyAll g1 = applyAll g0 := applyAll_congr rfl
    have hMS : mergeStep g1 = mergeStep g0 := mergeStep_congr rfl rfl
    have hfac : g1.factors.map (applyAll g1) = fs.map (applyAll g0) := by
      show (fs.map (applyAll g0)).map (applyAll g1) = fs.map (applyAll g0)
      rw [hAA, hidem]
    have hc1 : ¬ ((g1.factors.map (applyAll g1)).map (·.colName)).length ≠
        ((g1.factors.map (applyAll g1)).map (·.colName)).dedup.length := by
      rw [hfac]
      exact hc
    have h2 := generate_nodup g1 hc1
    rw [h2]
    have hfold : g1.factors.foldl (mergeStep g1)
        (skeleton g1.dateRange g1.features g1.baseValue) =
        fs.foldl (mergeStep g0) (skeleton g0.dateRange g0.features g0.baseValue) := by
      show (fs.map (applyAll g0)).foldl (mergeStep g1)
          (skeleton g0.dateRange g0.features g0.baseValue) = _
      rw [hMS, List.foldl_map, hstep]
    rw [hfac, hfold, ← htbl]

end TSGen

namespace TSGen

/-! Section: The left-merge invariants (claims C1, C2) -/

theorem lookup_append_right {xs : List (String × Rat)} (ys : List (String × Rat))
    {k : String} (h : k ∉ xs.map Prod.fst) :
    (xs ++ ys).lookup k = ys.lookup k := by
  rw [lookup_append, lookup_eq_none_of_notMem h]
  rfl

theorem rowMatches_congr {keys : List String} {r r' : Row}
    (hd : r'.date = r.date) (hf : r'.feats = r.feats) :
    rowMatches keys r' = rowMatches keys r := by
  funext fr
  rw [rowMatches, rowMatches, hd, hf]

theorem mem_mergeFactor {rows : List Row} {keys : List String} {col : String}
    {df : List FRow} {r' : Row} (h : r' ∈ mergeFactor rows keys col df) :
    ∃ r ∈ rows, r'.date = r.date ∧ r'.feats = r.feats ∧
      r'.baseAmount = r.baseAmount ∧
      ∃ v, r'.cells = r.cells ++ [(col, v)] ∧
        (df.filter (rowMatches keys r) = [] → v = 1) := by
  rw [mergeFactor] at h
  obtain ⟨r, hr, hmem⟩ := List.mem_flatMap.mp h
  cases hfil : df.filter (rowMatches keys r) with
  | nil =>
    rw [hfil] at hmem
    simp only [List.mem_singleton] at hmem
    subst hmem
    exact ⟨r, hr, rfl, rfl, rfl, 1, rfl, fun _ => rfl⟩
  | cons fr ft =>
    rw [hfil] at hmem
    obtain ⟨fr', _, rfl⟩ := List.mem_map.mp hmem
    refine ⟨r, hr, rfl, rfl, rfl, fr'.value, rfl, fun hnil => ?_⟩
    rw [hfil] at hnil
    exact absurd hnil (List.cons_ne_nil _ _)

theorem mergeFactor_preserves (rows : List Row) (keys : List String)
    (col : String) (df : List FRow) (r : Row) (hr : r ∈ rows) :
    ∃ r' ∈ mergeFactor rows keys col df, r'.date = r.date ∧ r'.feats = r.feats := by
  rw [mergeFactor]
  cases hfil : df.filter (rowMatches keys r) with
  | nil =>
    refine ⟨{ r with cells := r.cells ++ [(col, 1)] }, ?_, rfl, rfl⟩
    refine List.mem_flatMap.mpr ⟨r, hr, ?_⟩
    rw [hfil]
    exact List.mem_singleton.mpr rfl
  | cons fr ft =>
    refine ⟨{ r with cells := r.cells ++ [(col, fr.value)] }, ?_, rfl, rfl⟩
    refine List.mem_flatMap.mpr ⟨r, hr, ?_⟩
    rw [hfil]
    exact List.mem_map.mpr ⟨fr, List.mem_cons_self _ _, rfl⟩

theorem mergeFold_preserves (g : Generator) (fs : List Factor) (rows : List Row)
    (r : Row) (hr : r ∈ rows) :
    ∃ r' ∈ fs.foldl (mergeStep g) rows, r'.date = r.date ∧ r'.feats = r.feats := by
  induction fs generalizing rows r with
  | nil => exact ⟨r, hr, rfl, rfl⟩
  | cons f0 ft ih =>
    rw [List.foldl_cons]
    obtain ⟨r1, hr1, hd1, hf1⟩ :=
      mergeFactor_preserves rows (mergeKeys g f0) ((applyAll g f0).colName)
        (factorDf g f0) r hr
    obtain ⟨r', hr', hd', hf'⟩ := ih (mergeStep g rows f0) r1 (by rw [mergeStep]; exact hr1)
    exact ⟨r', hr', hd'.trans hd1, hf'.trans hf1⟩

theorem mergeFold_spec (g : Generator) (fs : List Factor) (rows : List Row)
    (hnd : (fs.map (·.colName)).Nodup)
    (hdisj : ∀ r ∈ rows, ∀ f ∈ fs, f.colName ∉ r.cells.map Prod.fst) :
    ∀ r' ∈ fs.foldl (mergeStep g) rows,
      ∃ r ∈ rows, r'.date = r.date ∧ r'.feats = r.feats ∧
        r'.baseAmount = r.baseAmount ∧
        (∃ ext, r'.cells = r.cells ++ ext ∧ ext.map Prod.fst = fs.map (·.colName)) ∧
        ∀ f ∈ fs, (factorDf g f).filter (rowMatches (mergeKeys g f) r') = [] →
          r'.cells.lookup f.colName = some 1 := by
  induction fs generalizing rows with
  | nil =>
    intro r' hr'
    exact ⟨r', hr', rfl, rfl, rfl, ⟨[], by simp, by simp⟩, by simp⟩
  | cons f0 ft ih =>
    intro r' hr'
    rw [List.foldl_cons] at hr'
    rw [List.map_cons] at hnd
    have hnd' : (ft.map (·.colName)).Nodup := (List.nodup_cons.mp hnd).2
    have hne : f0.colName ∉ ft.map (·.colName) := (List.nodup_cons.mp hnd).1
    have hdisj1 : ∀ r1 ∈ mergeStep g rows f0, ∀ f ∈ ft,
        f.colName ∉ r1.cells.map Prod.fst := by
      intro r1 hr1 f hf
      rw [mergeStep] at hr1
      obtain ⟨r, hr, _, _, _, v, hcells, _⟩ := mem_mergeFactor hr1
      rw [hcells, List.map_append]
      intro hmem
      rcases List.mem_append.mp hmem with hmem1 | hmem2
      · exact hdisj r hr f (List.mem_cons_of_mem _ hf) hmem1
      · simp only [List.map_cons, List.map_nil, List.mem_singleton,
          applyAll_colName] at hmem2
        exact hne (hmem2 ▸ List.mem_map_of_mem (·.colName) hf)
    obtain ⟨r1, hr1, hdate1, hfeats1, hbase1, ⟨ext, hcellsext, hextmap⟩, hlook⟩ :=
      ih (mergeStep g rows f0) hnd' hdisj1 r' hr'
    have hr1' : r1 ∈ mergeFactor rows (mergeKeys g f0) ((applyAll g f0).colName)
        (factorDf g f0) := by
      rw [mergeStep] at hr1
      exact hr1
    obtain ⟨r, hr, hdate0, hfeats0, hbase0, v, hcells0, hv1⟩ := mem_mergeFactor hr1'
    refine ⟨r, hr, hdate1.trans hdate0, hfeats1.trans hfeats0,
      hbase1.trans hbase0, ⟨((applyAll g f0).colName, v) :: ext, ?_, ?_⟩, ?_⟩
    · rw [hcellsext, hcells0, List.append_assoc]
      rfl
    · rw [List.map_cons, hextmap, List.map_cons, applyAll_colName]
    · intro f hf hfil
      rcases List.mem_cons.mp hf with rfl | hf'
      · have hdd : r'.date = r.date := hdate1.trans hdate0
        have hff : r'.feats = r.feats := hfeats1.trans hfeats0
        have hfil0 : (factorDf g f).filter (rowMatches (mergeKeys g f) r) = [] := by
          rw [← rowMatches_congr hdd hff]
          exact hfil
        have hv := hv1 hfil0
        subst hv
        rw [hcellsext, hcells0, List.append_assoc,
          lookup_append_right _ (hdisj r hr f (List.mem_cons_self _ _))]
        have hcol : (f.colName == (applyAll g f).colName) = true := by
          simp [applyAll_colName]
        rw [List.cons_append, List.nil_append, List.lookup_cons]
        simp [hcol]
      · exact hlook f hf' hfil

end TSGen

namespace TSGen

theorem finalizeRow_cells (names : List String) (r : Row) :
    (finalizeRow names r).cells =
      setCell (setCell r.cells "total_factor" ((names.map (getCell r)).prod))
        "value" (((names.map (getCell r)).prod) * r.baseAmount) := by
  have hg : ∀ cells : List (String × Rat),
      getCell ({ r with cells := cells } : Row) "total_factor" =
        (cells.lookup "total_factor").getD 0 := fun _ => rfl
  show setCell (setCell r.cells "total_factor" ((names.map (getCell r)).prod))
      "value"
      (getCell
        ({ r with cells := (setCell r.cells "total_factor" ((names.map (getCell r)).prod)) } : Row)
        "total_factor" *
        ({ r with cells := (setCell r.cells "total_factor" ((names.map (getCell r)).prod)) } : Row).baseAmount) = _
  rw [hg, lookup_setCell_self]
  rfl

theorem finalizeRow_lookup_total (names : List String) (r : Row) :
    (finalizeRow names r).cells.lookup "total_factor" =
      some ((names.map (getCell r)).prod) := by
  rw [finalizeRow_cells,
    lookup_setCell_ne _ _ (by decide : "total_factor" ≠ "value"),
    lookup_setCell_self]

theorem finalizeRow_lookup_value (names : List String) (r : Row) :
    (finalizeRow names r).cells.lookup "value" =
      some (((names.map (getCell r)).prod) * r.baseAmount) := by
  rw [finalizeRow_cells, lookup_setCell_self]

theorem finalizeRow_lookup_ne (names : List String) (r : Row) {n : String}
    (h1 : n ≠ "total_factor") (h2 : n ≠ "value") :
    (finalizeRow names r).cells.lookup n = r.cells.lookup n := by
  rw [finalizeRow_cells, lookup_setCell_ne _ _ h2, lookup_setCell_ne _ _ h1]

theorem finalizeRow_date (names : List String) (r : Row) :
    (finalizeRow names r).date = r.date := rfl

theorem finalizeRow_feats (names : List String) (r : Row) :
    (finalizeRow names r).feats = r.feats := rfl

theorem finalizeRow_baseAmount (names : List String) (r : Row) :
    (finalizeRow names r).baseAmount = r.baseAmount := rfl

/-- Claim C1: On every row of a table returned by `Generator.generate`, the
`total_factor` column is the row-wise product of all the factors' value
columns and the `value` column is that product times the row's
`base_amount` (stated for engines whose factor names do not collide with
the two derived column names, which `generate` would overwrite). -/
theorem generate_total_factor_and_value (g : Generator) (rows : List Row)
    (hgen : g.generate.2 = .ok rows)
    (h1 : "total_factor" ∉ g.factors.map (·.colName))
    (h2 : "value" ∉ g.factors.map (·.colName)) :
    ∀ r ∈ rows,
      r.cells.lookup "total_factor" =
        some (((g.factors.map (·.colName)).map (getCell r)).prod)
      ∧ r.cells.lookup "value" =
        some ((((g.factors.map (·.colName)).map (getCell r)).prod) *
          r.baseAmount) := by
  have hnames := map_applyAll_colName g g.factors
  by_cases hc : ((g.factors.map (applyAll g)).map (·.colName)).length ≠
      ((g.factors.map (applyAll g)).map (·.colName)).dedup.length
  · rw [generate_dup g hc] at hgen
    exact absurd hgen (by simp)
  · rw [generate_nodup g hc] at hgen
    simp only [Except.ok.injEq] at hgen
    subst hgen
    intro r hr
    obtain ⟨r0, hr0, rfl⟩ := List.mem_map.mp hr
    rw [hnames]
    have hagree : ∀ n ∈ g.factors.map (·.colName),
        getCell (finalizeRow (g.factors.map (·.colName)) r0) n = getCell r0 n := by
      intro n hn
      have hn1 : n ≠ "total_factor" := fun hh => h1 (hh ▸ hn)
      have hn2 : n ≠ "value" := fun hh => h2 (hh ▸ hn)
      rw [getCell, getCell, finalizeRow_lookup_ne _ _ hn1 hn2]
    have hmapeq : (g.factors.map (·.colName)).map
          (getCell (finalizeRow (g.factors.map (·.colName)) r0)) =
        (g.factors.map (·.colName)).map (getCell r0) :=
      List.map_congr_left hagree
    refine ⟨?_, ?_⟩
    · rw [finalizeRow_lookup_total, hmapeq]
    · rw [finalizeRow_lookup_value, hmapeq, finalizeRow_baseAmount]

/-- Witness for C1: the three-value engine; its returned table satisfies
the product invariant on every row. -/
theorem generate_total_factor_and_value_witness :
    sparseCoverEngine.generate.2 = .ok sparseCoverTable
    ∧ ("total_factor" ∉ sparseCoverEngine.factors.map (·.colName))
    ∧ ("value" ∉ sparseCoverEngine.factors.map (·.colName))
    ∧ ∀ r ∈ sparseCoverTable,
        r.cells.lookup "total_factor" =
          some (((sparseCoverEngine.factors.map (·.colName)).map
            (getCell r)).prod)
        ∧ r.cells.lookup "value" =
          some ((((sparseCoverEngine.factors.map (·.colName)).map
            (getCell r)).prod) * r.baseAmount) := by
  have hc : ¬ ((sparseCoverEngine.factors.map
        (applyAll sparseCoverEngine)).map (·.colName)).length ≠
      ((sparseCoverEngine.factors.map
        (applyAll sparseCoverEngine)).map (·.colName)).dedup.length := by
    decide
  have hgen : sparseCoverEngine.generate.2 = .ok sparseCoverTable := by
    rw [generate_nodup sparseCoverEngine hc]
    rfl
  exact ⟨hgen, by decide, by decide,
    generate_total_factor_and_value sparseCoverEngine sparseCoverTable hgen
      (by decide) (by decide)⟩

/-- Claim C2: Neutral fill: every (date, feature-combination) of the skeleton
still appears in the returned table, and any returned row that matches no
row of a given factor's generated output carries exactly `1` — the
multiplicative identity — in that factor's column (for factor names
distinct from the derived `total_factor`/`value` columns).  In particular a
feature value not covered by the factor keeps factor `1.0`. -/
theorem generate_neutral_fill (g : Generator) (rows : List Row)
    (hgen : g.generate.2 = .ok rows) :
    (∀ d ∈ g.dateRange, ∀ c ∈ featureCombos g.features,
      ∃ r ∈ rows, r.date = d ∧ r.feats = c)
    ∧ ∀ f ∈ g.factors, f.colName ≠ "total_factor" → f.colName ≠ "value" →
      ∀ r ∈ rows,
        (∀ fr ∈ factorDf g f, rowMatches (mergeKeys g f) r fr = false) →
        r.cells.lookup f.colName = some 1 := by
  have hnames := map_applyAll_colName g g.factors
  by_cases hc : ((g.factors.map (applyAll g)).map (·.colName)).length ≠
      ((g.factors.map (applyAll g)).map (·.colName)).dedup.length
  · rw [generate_dup g hc] at hgen
    exact absurd hgen (by simp)
  · rw [generate_nodup g hc] at hgen
    simp only [Except.ok.injEq] at hgen
    subst hgen
    have hnd : (g.factors.map (·.colName)).Nodup := by
      push_neg at hc
      rw [hnames] at hc
      exact (dedup_length_eq_iff _).mp hc
    have hskel : ∀ r ∈ skeleton g.dateRange g.features g.baseValue,
        r.cells = ([] : List (String × Rat)) := by
      intro r hr
      obtain ⟨d, _, hr2⟩ := List.mem_flatMap.mp hr
      obtain ⟨c, _, rfl⟩ := List.mem_map.mp hr2
      rfl
    constructor
    · intro d hd c hcc
      have hsk : (⟨d, c, g.baseValue, []⟩ : Row) ∈
          skeleton g.dateRange g.features g.baseValue := by
        rw [skeleton]
        exact List.mem_flatMap.mpr ⟨d, hd, List.mem_map.mpr ⟨c, hcc, rfl⟩⟩
      obtain ⟨r0, hr0, hd0, hf0⟩ :=
        mergeFold_preserves g g.factors
          (skeleton g.dateRange g.features g.baseValue) _ hsk
      refine ⟨finalizeRow ((g.factors.map (applyAll g)).map (·.colName)) r0,
        List.mem_map.mpr ⟨r0, hr0, rfl⟩, ?_, ?_⟩
      · rw [finalizeRow_date, hd0]
      · rw [finalizeRow_feats, hf0]
    · intro f hf hf1 hf2 r hr hnomatch
      obtain ⟨r0, hr0, rfl⟩ := List.mem_map.mp hr
      have hdisj : ∀ r ∈ skeleton g.dateRange g.features g.baseValue,
          ∀ f' ∈ g.factors, f'.colName ∉ r.cells.map Prod.fst := by
        intro r hrk f' _
        rw [hskel r hrk]
        simp
      obtain ⟨rsk, _, _, _, _, _, hlook⟩ :=
        mergeFold_spec g g.factors (skeleton g.dateRange g.features g.baseValue)
          hnd hdisj r0 hr0
      have hfil : (factorDf g f).filter (rowMatches (mergeKeys g f) r0) = [] := by
        rw [List.filter_eq_nil_iff]
        intro fr hfr
        have hrm : rowMatches (mergeKeys g f)
            (finalizeRow ((g.factors.map (applyAll g)).map (·.colName)) r0) =
            rowMatches (mergeKeys g f) r0 :=
          rowMatches_congr (finalizeRow_date _ _) (finalizeRow_feats _ _)
        rw [← hrm]
        simp only [Bool.not_eq_true]
        exact hnomatch fr hfr
      rw [finalizeRow_lookup_ne _ _ hf1 hf2]
      exact hlook f hf hfil

/-- Witness for C2: the engine whose feature `product` declares values
`a`, `b`, `c` while its only factor covers `a` and `b` — every skeleton
combination appears in the output and uncovered rows get factor 1. -/
theorem generate_neutral_fill_witness :
    sparseCoverEngine.generate.2 = .ok sparseCoverTable
    ∧ ((∀ d ∈ sparseCoverEngine.dateRange,
        ∀ c ∈ featureCombos sparseCoverEngine.features,
        ∃ r ∈ sparseCoverTable, r.date = d ∧ r.feats = c)
      ∧ ∀ f ∈ sparseCoverEngine.factors,
          f.colName ≠ "total_factor" → f.colName ≠ "value" →
          ∀ r ∈ sparseCoverTable,
            (∀ fr ∈ factorDf sparseCoverEngine f,
              rowMatches (mergeKeys sparseCoverEngine f) r fr = false) →
            r.cells.lookup f.colName = some 1) := by
  have hc : ¬ ((sparseCoverEngine.factors.map
        (applyAll sparseCoverEngine)).map (·.colName)).length ≠
      ((sparseCoverEngine.factors.map
        (applyAll sparseCoverEngine)).map (·.colName)).dedup.length := by
    decide
  have hgen : sparseCoverEngine.generate.2 = .ok sparseCoverTable := by
    rw [generate_nodup sparseCoverEngine hc]
    rfl
  exact ⟨hgen, generate_neutral_fill sparseCoverEngine sparseCoverTable hgen⟩

end TSGen
